import Mathlib

/-!
Verification of the msglink per-connection link state machine
(`src/include/el/msglink/link.hpp` and its supporting headers) of the
el_std_cpp repository, as a shallow embedding in Lean 4.

Modelling conventions:
* `std::set<std::string>` is modelled as a strictly sorted `List String`
  (C++ `std::set` iterates in sorted order; `setInsert`/`setErase` mirror
  `insert`/`erase`).
* `std::unordered_multimap<std::string, sub_id_t>` is modelled as a
  `List (String × Int)`.  Only the relative order of entries sharing one
  key is observable through the operations the code uses
  (`contains`, `equal_range`, `erase(iterator)`), and that order is not
  insertion order: GNU libstdc++ places a newly inserted entry for an
  already-present key *adjacent to the first entry* of that key's group,
  directly after it on the GCC 11+ small-table hint path
  (`size() <= 20` with the non-fast `std::hash<string>`), and directly
  before it otherwise (`_M_find_before_node` path; always on GCC <= 10).
  `mmapEmplace` reproduces the first regime (the one the concrete
  scenario states in this file, with far fewer than 20 entries, are in)
  and `mmapEmplaceBefore` the second; the ordering theorem below treats
  every mix of the two.  An entry with a fresh key is placed at its
  bucket's head; since cross-key order is unobservable here, the model
  appends it.
* `nlohmann::json` values are opaque payloads (`JsonVal`).
* Exceptions become explicit error values (`LinkErr`); a handler that
  returns a state *and* an error models C++ code that mutated the state
  before throwing.  User event-listener code is a function
  `JsonVal → HandlerOutcome`, where `HandlerOutcome.raised` models the
  handler throwing.
* `tid_t`/`sub_id_t` are `int64_t`; they are modelled as unbounded `Int`
  because every series starts at `±1` and moves by `±1` per call, so
  64-bit wrap-around is unreachable in any feasible execution.
-/

namespace ElMsglink

/-- Opaque stand-in for an `nlohmann::json` payload value.  The link core
never inspects event/function payloads, it only moves them around. -/
structure JsonVal where
  raw : String
deriving DecidableEq

/-- Kinds of C++ exceptions a user event handler may throw, as far as the
link can distinguish them: the fan-out loop in
`link::handle_message_post_auth` (EVENT_EMIT case) catches only
`std::out_of_range`, and `link::on_message` additionally catches
`nlohmann::json::exception` (the ordinary failure of the payload-decode
step that every `define_event` wrapper handler begins with; that
hierarchy is separate from `std::out_of_range`).  `otherStd` is any
other `std::exception`. -/
inductive ExcKind where
  | outOfRange
  | jsonExc
  | otherStd
deriving DecidableEq

/-- Outcome of invoking a user event-listener. -/
inductive HandlerOutcome where
  | ok
  | raised (k : ExcKind)
deriving DecidableEq

/-- A wrapped event-listener (`event_subscription::handler_function_t`). -/
def Handler : Type := JsonVal → HandlerOutcome

/-- Outcome of an incoming function handler
(`link::function_handler_function_t`): a results payload, or a thrown
`std::exception` whose `what()` string is captured. -/
inductive FnOutcome where
  | ok (results : JsonVal)
  | raised (info : String)
deriving DecidableEq

/-- An incoming-function handler. -/
def FnHandler : Type := JsonVal → FnOutcome

/-- Transaction direction (`el::msglink::inout_t`). -/
inductive InOut where
  | incoming
  | outgoing
deriving DecidableEq

/-- Dynamic type of a transaction object (`transaction_auth_t` vs
`transaction_function_call_t`), which `link::get_transaction` checks via
`dynamic_pointer_cast`. -/
inductive TKind where
  | auth
  | functionCall
deriving DecidableEq

/-- A registered transaction (`transaction_t`).  The id is the key of the
`active_transactions` map.  `hasResultHook`/`hasErrorHook` record whether
`handle_result`/`handle_error` are non-null
(`transaction_function_call_t`). -/
structure Transaction where
  direction : InOut
  kind : TKind
  hasResultHook : Bool := false
  hasErrorHook : Bool := false
deriving DecidableEq

/-- An `event_subscription` object (subscriptions.hpp).  `handler = none`
and `cancelFn = none` model the null `std::function`s after
`invalidate()`.  `cancelFn` carries the event name and sub id captured by
the cancel lambda built in `link::add_event_subscription`. -/
structure SubObj where
  handler : Option Handler
  cancelFn : Option (String × Int)

/-- WebSocket close codes reserved by msglink
(`internal/ws_close_code.hpp`). -/
inductive CloseCode where
  | closedByUser
  | protoVersionIncompatible
  | linkVersionMismatch
  | eventRequirementsNotSatisfied
  | dataSourceRequirementsNotSatisfied
  | functionRequirementsNotSatisfied
  | malformedMessage
  | protocolErrorCode
  | undefinedLinkError
deriving DecidableEq

/-- Numeric value of each close code (`close_code_t`). -/
def closeCodeNum : CloseCode → Nat
  | .closedByUser => 1000
  | .protoVersionIncompatible => 3001
  | .linkVersionMismatch => 3002
  | .eventRequirementsNotSatisfied => 3003
  | .dataSourceRequirementsNotSatisfied => 3004
  | .functionRequirementsNotSatisfied => 3005
  | .malformedMessage => 3006
  | .protocolErrorCode => 3007
  | .undefinedLinkError => 3100

/-- The exception kinds thrown by link entry points (errors.hpp), as far
as the supervisor's catch cascade
(`server.hpp`, `run_link_entry_with_error_handling`) distinguishes them.
`userException` is an arbitrary `std::exception` escaping from user
handler code. -/
inductive LinkErr where
  | incompatibleLink (code : CloseCode)
  | invalidTransaction
  | duplicateTransaction
  | malformedMessage
  | protocolViolation
  | invalidIdentifier
  | invalidOutgoingEvent
  | invalidMsgType
  /-- a raw `nlohmann::json::exception` in flight (thrown by user handler
  code); `link::on_message` catches it and rethrows
  `malformed_message_error`, so it never reaches the supervisor as-is. -/
  | jsonException
  | userException
deriving DecidableEq

/-- The supervisor's error translation
(`server.hpp`, `run_link_entry_with_error_handling`): which close code a
link-raised error leads to, or `none` when the error is only logged and
the connection stays open (`invalid_transaction_error`). -/
def supervisorClose : LinkErr → Option CloseCode
  | .incompatibleLink c => some c
  | .invalidTransaction => none
  | .malformedMessage => some .malformedMessage
  | .protocolViolation => some .protocolErrorCode
  | _ => some .undefinedLinkError

/-- Protocol version triple (`proto_version_t = std::array<uint32_t,3>`). -/
structure ProtoVersion where
  major : Nat
  minor : Nat
  patch : Nat
deriving DecidableEq

/-- The current protocol version (`proto_version::current`). -/
def protoCurrent : ProtoVersion := ⟨0, 1, 0⟩

/-- Lexicographic `operator>` of `std::array<uint32_t,3>`:
`a > b`. -/
def protoGt (a b : ProtoVersion) : Bool :=
  a.major > b.major ∨
    (a.major = b.major ∧ (a.minor > b.minor ∨
      (a.minor = b.minor ∧ a.patch > b.patch)))

/-- `proto_version::compatible_versions`. -/
def compatibleVersions : List ProtoVersion := [⟨0, 1, 0⟩]

/-- `proto_version::is_compatible`. -/
def isCompatible (v : ProtoVersion) : Bool :=
  compatibleVersions.contains v

/-- A wire message sent by the link (`internal/messages.hpp`), recorded in
order on the model's outbox.  `data_sources` of the auth message is left
empty by `link::on_connection_established` (the assignment is commented
out in the source). -/
inductive WireMsg where
  | authMsg (tid : Int) (protoVersion : ProtoVersion) (linkVersion : Nat)
      (noPing : Option Bool)
      (events dataSources functions : List String)
  | authAck (tid : Int)
  | evtSub (tid : Int) (name : String)
  | evtUnsub (tid : Int) (name : String)
  | evtEmit (tid : Int) (name : String) (data : JsonVal)
  | funcCall (tid : Int) (name : String) (params : JsonVal)
  | funcErr (tid : Int) (info : String)
  | funcResult (tid : Int) (results : JsonVal)
  | pongMsg
deriving DecidableEq

/-- Sorted-insert into the model of a `std::set<std::string>`
(no duplicates; `std::set::insert` keeps sorted order). -/
def setInsert (x : String) : List String → List String
  | [] => [x]
  | y :: ys =>
    if x < y then x :: y :: ys
    else if x = y then y :: ys
    else y :: setInsert x ys

/-- `std::set::erase` by value. -/
def setErase (x : String) (l : List String) : List String :=
  l.filter (fun y => y ≠ x)

/-- `std::includes(sup.begin(), sup.end(), sub.begin(), sub.end())` over
two `std::set<std::string>` ranges: every required element occurs in the
provided range, i.e. subset. -/
def subsetB (sub sup : List String) : Bool :=
  sub.all (fun x => sup.contains x)

/-- `unordered_multimap::emplace` of `event_names_to_subscription_id` in
the GCC 11+ libstdc++ *small-table* regime (`size() <= 20` for string
keys, which covers every concrete scenario state in this file): a new
entry for a key that is already present is spliced directly after the
first entry of that key's group; see the module docstring, and
`mmapEmplaceBefore` for the other regime.  A fresh key's entry position
relative to other keys is unobservable and the model appends it. -/
def mmapEmplace : List (String × Int) → String → Int → List (String × Int)
  | [], k, v => [(k, v)]
  | p :: rest, k, v =>
    if p.1 = k then p :: (k, v) :: rest
    else p :: mmapEmplace rest k v

/-- `unordered_multimap::emplace` in libstdc++'s regime without a usable
hint (`_M_find_before_node` path: tables larger than 20 entries on
GCC 11+, and always on GCC <= 10): the new entry is inserted directly
*before* the first entry of its key's group. -/
def mmapEmplaceBefore :
    List (String × Int) → String → Int → List (String × Int)
  | [], k, v => [(k, v)]
  | p :: rest, k, v =>
    if p.1 = k then (k, v) :: p :: rest
    else p :: mmapEmplaceBefore rest k v

/-- `unordered_multimap::contains(name)`. -/
def mmapContains (m : List (String × Int)) (k : String) : Bool :=
  m.any (fun p => p.1 = k)

/-- The sub ids of `equal_range(name)` in iteration order. -/
def mmapGroup (m : List (String × Int)) (k : String) : List Int :=
  (m.filter (fun p => p.1 = k)).map (fun p => p.2)

/-- `unordered_multimap::erase(iterator)` of the entry `(k, v)` found by
the scan in `link::remove_event_subscription`.  Sub ids are never reused,
so at most one such entry exists; the model erases the first occurrence. -/
def mmapEraseEntry : List (String × Int) → String → Int → List (String × Int)
  | [], _, _ => []
  | p :: rest, k, v =>
    if p = (k, v) then rest
    else p :: mmapEraseEntry rest k v

/-- Lookup in an integer-keyed map modelled as an association list
(`std::map` / `std::unordered_map` with `tid_t` or `sub_id_t` keys). -/
def lookupZ {α : Type} (m : List (Int × α)) (k : Int) : Option α :=
  (m.find? (fun p => p.1 = k)).map (fun p => p.2)

/-- `erase(key)` on an integer-keyed map. -/
def eraseZ {α : Type} (m : List (Int × α)) (k : Int) : List (Int × α) :=
  m.filter (fun p => p.1 ≠ k)

/-- In-place update of the value stored under a key (mutation of the
shared object the map points to). -/
def updateZ {α : Type} (m : List (Int × α)) (k : Int) (f : α → α) :
    List (Int × α) :=
  m.map (fun p => if p.1 = k then (p.1, f p.2) else p)

/-- Lookup in a string-keyed map
(`available_incoming_function_names_to_functions`). -/
def lookupS {α : Type} (m : List (String × α)) (k : String) : Option α :=
  (m.find? (fun p => p.1 = k)).map (fun p => p.2)

/-- The state of one `el::msglink::link` object, together with two
observation traces (`sentMessages`: everything passed to
`interface.send_message`; `handlerCalls`, `errorHookCalls`,
`resultHookCalls`: every invocation of user-listener /
transaction-completion code). -/
structure LinkState where
  /-- server or client role; fixes `tid_step_value` (+1 / -1). -/
  isServer : Bool
  /-- user-defined link version (`_el_msglink_get_link_version`). -/
  linkVersion : Nat
  /-- `tid_counter`; initialized to the step value. -/
  tidCounter : Int
  /-- `active_transactions : std::map<tid_t, transaction_ptr_t>`. -/
  activeTransactions : List (Int × Transaction)
  /-- `auth_ack_sent` set-once flag. -/
  authAckSent : Bool
  /-- `auth_ack_received` set-once flag. -/
  authAckReceived : Bool
  /-- `authentication_done` set-once flag. -/
  authenticationDone : Bool
  /-- `pong_messages_required`. -/
  pongMessagesRequired : Bool
  /-- `available_outgoing_events : std::set<std::string>`. -/
  availableOutgoingEvents : List String
  /-- `active_outgoing_events : std::set<std::string>`. -/
  activeOutgoingEvents : List String
  /-- `available_incoming_events : std::set<std::string>`. -/
  availableIncomingEvents : List String
  /-- `active_incoming_events : std::set<std::string>`. -/
  activeIncomingEvents : List String
  /-- `sub_id_counter`. -/
  subIdCounter : Int
  /-- `event_names_to_subscription_id : unordered_multimap`. -/
  eventNamesToSubscriptionId : List (String × Int)
  /-- `event_subscription_ids_to_objects`: the map entries, pointing at
  the shared `event_subscription` objects.  Erasing an entry models
  dropping the link's `shared_ptr`; the source always calls
  `invalidate()` on the object immediately before erasing it, so an
  object no longer reachable through this map is always in the
  invalidated state (both `std::function` members null). -/
  subObjects : List (Int × SubObj)
  /-- `available_outgoing_functions : std::set<std::string>`. -/
  availableOutgoingFunctions : List String
  /-- `available_incoming_function_names_to_functions`. -/
  incomingFunctions : List (String × FnHandler)
  /-- trace: messages sent via `interface.send_message`, in order. -/
  sentMessages : List WireMsg
  /-- trace: `(sub_id, data)` for each actual invocation of a
  subscription's handler function. -/
  handlerCalls : List (Int × JsonVal)
  /-- trace: `(tid, info)` for each invocation of a transaction's
  `handle_error` hook. -/
  errorHookCalls : List (Int × String)
  /-- trace: `(tid, results)` for each invocation of a transaction's
  `handle_result` hook. -/
  resultHookCalls : List (Int × JsonVal)

/-- `tid_step_value`: +1 for a server link, -1 for a client link
(`link::link` constructor). -/
def tidStep (s : LinkState) : Int :=
  if s.isServer then 1 else -1

/-- A freshly constructed link (`link::link` plus the catalog populated
by the user's `define()`: the four name sets and the incoming-function
handler map).  `tid_counter` is initialized to the step value. -/
def initialLink (isServer : Bool) (linkVersion : Nat)
    (availIncomingEvents availOutgoingEvents : List String)
    (availOutgoingFunctions : List String)
    (incomingFns : List (String × FnHandler)) : LinkState where
  isServer := isServer
  linkVersion := linkVersion
  tidCounter := if isServer then 1 else -1
  activeTransactions := []
  authAckSent := false
  authAckReceived := false
  authenticationDone := false
  pongMessagesRequired := false
  availableOutgoingEvents := availOutgoingEvents
  activeOutgoingEvents := []
  availableIncomingEvents := availIncomingEvents
  activeIncomingEvents := []
  subIdCounter := 0
  eventNamesToSubscriptionId := []
  subObjects := []
  availableOutgoingFunctions := availOutgoingFunctions
  incomingFunctions := incomingFns
  sentMessages := []
  handlerCalls := []
  errorHookCalls := []
  resultHookCalls := []

/-- `link::generate_new_tid`: atomic fetch-and-add of the step value;
returns the value *before* the addition. -/
def generateNewTid (s : LinkState) : Int × LinkState :=
  (s.tidCounter, { s with tidCounter := s.tidCounter + tidStep s })

/-- `interface.send_message`. -/
def sendMessage (s : LinkState) (m : WireMsg) : LinkState :=
  { s with sentMessages := s.sentMessages ++ [m] }

/-- `link::send_pong_message`. -/
def sendPongMessage (s : LinkState) : LinkState :=
  sendMessage s .pongMsg

/-- `link::send_event_subscribe_message`. -/
def sendEventSubscribeMessage (s : LinkState) (name : String) : LinkState :=
  let (tid, s) := generateNewTid s
  sendMessage s (.evtSub tid name)

/-- `link::send_event_unsubscribe_message`. -/
def sendEventUnsubscribeMessage (s : LinkState) (name : String) : LinkState :=
  let (tid, s) := generateNewTid s
  sendMessage s (.evtUnsub tid name)

/-- `link::send_event_emit_message`. -/
def sendEventEmitMessage (s : LinkState) (name : String) (d : JsonVal) :
    LinkState :=
  let (tid, s) := generateNewTid s
  sendMessage s (.evtEmit tid name d)

/-- `link::on_authentication_done`: send an `evt_sub` for every event
already in `active_incoming_events` (iterated in `std::set` order, which
the model keeps sorted). -/
def onAuthenticationDone (s : LinkState) : LinkState :=
  s.activeIncomingEvents.foldl sendEventSubscribeMessage s

/-- `link::update_auth_done`. -/
def updateAuthDone (s : LinkState) : LinkState :=
  if s.authAckSent ∧ s.authAckReceived ∧ ¬s.authenticationDone then
    onAuthenticationDone { s with authenticationDone := true }
  else s

/-- The decoded fields of an inbound `auth` message (`msg_auth_t`). -/
structure AuthMsg where
  tid : Int
  protoVersion : ProtoVersion
  linkVersion : Nat
  noPing : Option Bool
  events : List String
  dataSources : List String
  functions : List String
deriving DecidableEq

/-- A structurally well-formed inbound message, after JSON parsing and
field decoding (the codec boundary is external; a message that fails to
decode raises `malformed_message_error` before reaching the handlers and
is not modelled here).  The constructors cover exactly the wire types
`msg_type_from_string` knows plus `pong`, which `link::on_message`
special-cases on the raw type string before the enum conversion. -/
inductive InMsg where
  | auth (a : AuthMsg)
  | authAck (tid : Int)
  | evtSub (tid : Int) (name : String)
  | evtSubAck (tid : Int)
  | evtSubNak (tid : Int)
  | evtUnsub (tid : Int) (name : String)
  | evtEmit (tid : Int) (name : String) (data : JsonVal)
  | dataSub (tid : Int)
  | dataSubAck (tid : Int)
  | dataSubNak (tid : Int)
  | dataUnsub (tid : Int)
  | dataChange (tid : Int)
  | funcCall (tid : Int) (name : String) (params : JsonVal)
  | funcErr (tid : Int) (info : String)
  | funcResult (tid : Int) (results : JsonVal)
  | pong
deriving DecidableEq

/-- The wire `type` string of a message (msgtype.hpp name macros). -/
def wireTypeName : InMsg → String
  | .auth _ => "auth"
  | .authAck _ => "auth_ack"
  | .evtSub _ _ => "evt_sub"
  | .evtSubAck _ => "evt_sub_ack"
  | .evtSubNak _ => "evt_sub_nak"
  | .evtUnsub _ _ => "evt_unsub"
  | .evtEmit _ _ _ => "evt_emit"
  | .dataSub _ => "data_sub"
  | .dataSubAck _ => "data_sub_ack"
  | .dataSubNak _ => "data_sub_nak"
  | .dataUnsub _ => "data_unsub"
  | .dataChange _ => "data_change"
  | .funcCall _ _ _ => "func_call"
  | .funcErr _ _ => "func_err"
  | .funcResult _ _ => "func_result"
  | .pong => "pong"

/-- `link::handle_message_pre_auth`.  The returned `Option LinkErr` is the
exception escaping the handler; the returned state keeps every mutation
performed before the throw (C++ exception semantics).  On the AUTH path
the protocol-version and link-version checks run first, then `no_ping`
is recorded, then the event- and function-requirement checks
(the data-source check is only a comment in the source); on success an
`auth_ack` carrying the peer's tid is sent and `auth_ack_sent` is set.
`update_auth_done()` runs after the switch on non-throwing paths. -/
def handleMessagePreAuth (s : LinkState) (m : InMsg) :
    LinkState × Option LinkErr :=
  match m with
  | .auth a =>
    if protoGt protoCurrent a.protoVersion ∧ ¬isCompatible a.protoVersion then
      (s, some (.incompatibleLink .protoVersionIncompatible))
    else if a.linkVersion ≠ s.linkVersion then
      (s, some (.incompatibleLink .linkVersionMismatch))
    else
      let s :=
        match a.noPing with
        | some b => { s with pongMessagesRequired := b }
        | none => s
      if ¬subsetB s.availableIncomingEvents a.events then
        (s, some (.incompatibleLink .eventRequirementsNotSatisfied))
      else if ¬subsetB s.availableOutgoingFunctions a.functions then
        (s, some (.incompatibleLink .functionRequirementsNotSatisfied))
      else
        let s := sendMessage s (.authAck a.tid)
        let s := { s with authAckSent := true }
        (updateAuthDone s, none)
  | .authAck tid =>
    match lookupZ s.activeTransactions tid with
    | none => (s, some .invalidTransaction)
    | some t =>
      if t.kind ≠ .auth then (s, some .invalidTransaction)
      else if t.direction ≠ .outgoing then (s, some .protocolViolation)
      else
        let s := { s with activeTransactions := eraseZ s.activeTransactions tid }
        let s := { s with authAckReceived := true }
        (updateAuthDone s, none)
  | _ => (s, some .protocolViolation)

/-- The fan-out loop of the EVENT_EMIT case of
`link::handle_message_post_auth`: for each sub id of `equal_range(name)`,
fetch the subscription object (`.at` throwing `std::out_of_range` is
caught and rethrown as `invalid_identifier_error`, aborting the loop) and
call its handler.  A handler that itself throws `std::out_of_range` is
captured by the same catch clause; any other exception escapes the loop
directly.  `call_handler` does nothing when the subscription was
invalidated (null handler check in subscriptions.hpp). -/
def fanoutLoop (s : LinkState) (ids : List Int) (d : JsonVal) :
    LinkState × Option LinkErr :=
  match ids with
  | [] => (s, none)
  | id :: rest =>
    match lookupZ s.subObjects id with
    | none => (s, some .invalidIdentifier)
    | some obj =>
      match obj.handler with
      | none => fanoutLoop s rest d
      | some h =>
        let s := { s with handlerCalls := s.handlerCalls ++ [(id, d)] }
        match h d with
        | .ok => fanoutLoop s rest d
        | .raised .outOfRange => (s, some .invalidIdentifier)
        | .raised .jsonExc => (s, some .jsonException)
        | .raised .otherStd => (s, some .userException)

/-- `link::handle_message_post_auth`. -/
def handleMessagePostAuth (s : LinkState) (m : InMsg) :
    LinkState × Option LinkErr :=
  match m with
  | .evtSub _ name =>
    if ¬s.availableOutgoingEvents.contains name then (s, none)
    else ({ s with activeOutgoingEvents := setInsert name s.activeOutgoingEvents },
          none)
  | .evtUnsub _ name =>
    if ¬s.activeOutgoingEvents.contains name then (s, none)
    else ({ s with activeOutgoingEvents := setErase name s.activeOutgoingEvents },
          none)
  | .evtEmit _ name d =>
    if ¬s.activeIncomingEvents.contains name ∨
        ¬mmapContains s.eventNamesToSubscriptionId name then
      (s, none)
    else
      fanoutLoop s (mmapGroup s.eventNamesToSubscriptionId name) d
  | .dataSub _ => (s, none)
  | .dataSubAck _ => (s, none)
  | .dataSubNak _ => (s, none)
  | .dataUnsub _ => (s, none)
  | .dataChange _ => (s, none)
  | .funcCall tid name params =>
    match lookupS s.incomingFunctions name with
    | none => (s, none)
    | some f =>
      match f params with
      | .raised info => (sendMessage s (.funcErr tid info), none)
      | .ok results => (sendMessage s (.funcResult tid results), none)
  | .funcErr tid info =>
    match lookupZ s.activeTransactions tid with
    | none => (s, some .invalidTransaction)
    | some t =>
      if t.kind ≠ .functionCall then (s, some .invalidTransaction)
      else
        let s :=
          if t.hasErrorHook then
            { s with errorHookCalls := s.errorHookCalls ++ [(tid, info)] }
          else s
        ({ s with activeTransactions := eraseZ s.activeTransactions tid }, none)
  | .funcResult tid results =>
    match lookupZ s.activeTransactions tid with
    | none => (s, some .invalidTransaction)
    | some t =>
      if t.kind ≠ .functionCall then (s, some .invalidTransaction)
      else
        let s :=
          if t.hasResultHook then
            { s with resultHookCalls := s.resultHookCalls ++ [(tid, results)] }
          else s
        ({ s with activeTransactions := eraseZ s.activeTransactions tid }, none)
  | _ => (s, some .protocolViolation)

/-- The `catch (const nlohmann::json::exception &)` wrapped around the
whole dispatch in `link::on_message`: a json exception escaping the
handlers (for which the only in-scope source is user listener code,
e.g. the payload-decode step of a `define_event` wrapper) is rethrown as
`malformed_message_error`; every other exception passes through. -/
def jsonCatch (r : LinkState × Option LinkErr) : LinkState × Option LinkErr :=
  match r with
  | (s, some .jsonException) => (s, some .malformedMessage)
  | r => r

/-- `link::on_message` (after JSON parsing and decoding): a `pong` message
is ignored with a warning before the type-string is converted to the
enum; everything else is dispatched on the `authentication_done` flag.
The whole dispatch runs inside the `nlohmann::json::exception` catch
modelled by `jsonCatch`. -/
def onMessage (s : LinkState) (m : InMsg) : LinkState × Option LinkErr :=
  jsonCatch
    (if wireTypeName m = "pong" then (s, none)
      else if s.authenticationDone then handleMessagePostAuth s m
      else handleMessagePreAuth s m)

/-- `link::generate_new_sub_id`: pre-increment, returns the new value. -/
def generateNewSubId (s : LinkState) : Int × LinkState :=
  (s.subIdCounter + 1, { s with subIdCounter := s.subIdCounter + 1 })

/-- `link::add_event_subscription`: allocate a sub id, create the
subscription object (its cancel lambda captures the event name and the
sub id), register it in both indexes, and if the event was not active
yet, activate it and — when authentication is already done — send the
`evt_sub` message.  Returns the sub id wrapped by the handle.  Note that
this revision of the source performs no validation of the name against
`available_incoming_events`. -/
def addEventSubscription (s : LinkState) (name : String) (h : Handler) :
    LinkState × Int :=
  let (subId, s) := generateNewSubId s
  let obj : SubObj := { handler := some h, cancelFn := some (name, subId) }
  let s := { s with subObjects := (subId, obj) :: s.subObjects }
  let s := { s with eventNamesToSubscriptionId :=
              mmapEmplace s.eventNamesToSubscriptionId name subId }
  if s.activeIncomingEvents.contains name then (s, subId)
  else
    let s := { s with activeIncomingEvents :=
                setInsert name s.activeIncomingEvents }
    if s.authenticationDone then (sendEventSubscribeMessage s name, subId)
    else (s, subId)

/-- `event_subscription::invalidate`: null both `std::function` members
of the shared object. -/
def invalidateSubObj (o : SubObj) : SubObj :=
  { o with handler := none, cancelFn := none }

/-- `link::remove_event_subscription`: count the multimap entries for the
name, erase the `(name, sub_id)` entry if present; if no entries remain,
deactivate the event and — when authenticated — send `evt_unsub`;
finally invalidate the subscription object and erase it from the id map
(`.at` throwing for an unknown id becomes `invalid_identifier_error`,
after the earlier mutations already happened). -/
def removeEventSubscription (s : LinkState) (name : String) (subId : Int) :
    LinkState × Option LinkErr :=
  let group := mmapGroup s.eventNamesToSubscriptionId name
  let found := group.contains subId
  let remaining := group.length - (if found then 1 else 0)
  let s :=
    if found then
      { s with eventNamesToSubscriptionId :=
          mmapEraseEntry s.eventNamesToSubscriptionId name subId }
    else s
  let s :=
    if remaining = 0 then
      let s := { s with activeIncomingEvents :=
                  setErase name s.activeIncomingEvents }
      if s.authenticationDone then sendEventUnsubscribeMessage s name else s
    else s
  match lookupZ s.subObjects subId with
  | none => (s, some .invalidIdentifier)
  | some _ =>
    let s := { s with subObjects := updateZ s.subObjects subId invalidateSubObj }
    ({ s with subObjects := eraseZ s.subObjects subId }, none)

/-- `event_subscription::cancel` reached through the user-held handle
identified by its sub id: run the cancel lambda if it is still set, then
null it ("only cancel once").  An id that is no longer in
`event_subscription_ids_to_objects` refers to an object that was
invalidated when it was erased (the source erases only right after
`invalidate()`), so its cancel function is null and the call is a no-op. -/
def cancelSubscription (s : LinkState) (subId : Int) :
    LinkState × Option LinkErr :=
  match lookupZ s.subObjects subId with
  | none => (s, none)
  | some obj =>
    match obj.cancelFn with
    | none => (s, none)
    | some (name, capturedId) =>
      match removeEventSubscription s name capturedId with
      | (s, some e) => (s, some e)
      | (s, none) =>
        ({ s with subObjects :=
            updateZ s.subObjects subId (fun o => { o with cancelFn := none }) },
         none)

/-- `link::emit` (with the event type's `_event_name` passed directly):
throw `invalid_outgoing_event_error` for an event not defined as
outgoing; silently return when the peer has not subscribed; otherwise
send the `evt_emit` message. -/
def emit (s : LinkState) (name : String) (d : JsonVal) :
    LinkState × Option LinkErr :=
  if ¬s.availableOutgoingEvents.contains name then
    (s, some .invalidOutgoingEvent)
  else if ¬s.activeOutgoingEvents.contains name then (s, none)
  else (sendEventEmitMessage s name d, none)

/-- `link::call` (with the function type's `_function_name` passed
directly): allocate a tid, create the outgoing function-call transaction
with both completion hooks set, send the `func_call` message.
`create_transaction` throws `duplicate_transaction_error` when the tid is
already taken (after the counter was already bumped). -/
def callFunction (s : LinkState) (name : String) (params : JsonVal) :
    LinkState × Option LinkErr :=
  let (tid, s) := generateNewTid s
  if (lookupZ s.activeTransactions tid).isSome then
    (s, some .duplicateTransaction)
  else
    let t : Transaction :=
      { direction := .outgoing, kind := .functionCall,
        hasResultHook := true, hasErrorHook := true }
    let s := { s with activeTransactions := (tid, t) :: s.activeTransactions }
    (sendMessage s (.funcCall tid name params), none)

/-- Keys of the incoming-function map collected into a
`std::set<std::string>` by the `std::transform` in
`link::on_connection_established` (sorted, deduplicated). -/
def incomingFunctionNames (s : LinkState) : List String :=
  (s.incomingFunctions.map (fun p => p.1)).foldl
    (fun acc n => setInsert n acc) []

/-- `link::on_connection_established`: register the outgoing auth
transaction and send the initial `auth` message advertising
`events = available_outgoing_events`, empty `data_sources`
(the assignment is commented out in the source) and
`functions =` the incoming-function names. -/
def onConnectionEstablished (s : LinkState) : LinkState × Option LinkErr :=
  let (tid, s) := generateNewTid s
  if (lookupZ s.activeTransactions tid).isSome then
    (s, some .duplicateTransaction)
  else
    let t : Transaction := { direction := .outgoing, kind := .auth }
    let s := { s with activeTransactions := (tid, t) :: s.activeTransactions }
    (sendMessage s
      (.authMsg tid protoCurrent s.linkVersion none
        s.availableOutgoingEvents [] (incomingFunctionNames s)),
     none)

/-- `link::on_pong_received`. -/
def onPongReceived (s : LinkState) : LinkState :=
  if s.pongMessagesRequired then sendPongMessage s else s

/-- What the link destructor did: which subscription objects it
invalidated, and which transaction error hooks it invoked (as
`(tid, info)` pairs). -/
structure TeardownTrace where
  invalidatedSubs : List Int
  errorHookCalls : List (Int × String)
deriving DecidableEq

/-- `link::~link` (link.hpp, lines 1240-1246): its entire body is one
loop invalidating every event subscription in
`event_subscription_ids_to_objects`; it does not touch
`active_transactions`, so no completion hook of any still-pending
transaction is invoked. -/
def linkTeardown (s : LinkState) : TeardownTrace :=
  { invalidatedSubs := s.subObjects.map (fun p => p.1)
    errorHookCalls := [] }

/-- One invocation of a link entry point, for the reachability relation:
the transport callbacks (`on_connection_established`, `on_message`,
`on_pong_received`) and the public user-facing methods. -/
inductive Action where
  | connEstablished
  | inbound (m : InMsg)
  | addSub (name : String) (h : Handler)
  | cancelSub (subId : Int)
  | removeSub (name : String) (subId : Int)
  | emitEvt (name : String) (d : JsonVal)
  | callFn (name : String) (params : JsonVal)
  | pongReceived

/-- Execute one entry point.  A raised error propagates to the
supervisor; the state keeps the mutations made before the throw. -/
def applyAction (s : LinkState) (a : Action) : LinkState :=
  match a with
  | .connEstablished => (onConnectionEstablished s).1
  | .inbound m => (onMessage s m).1
  | .addSub name h => (addEventSubscription s name h).1
  | .cancelSub subId => (cancelSubscription s subId).1
  | .removeSub name subId => (removeEventSubscription s name subId).1
  | .emitEvt name d => (emit s name d).1
  | .callFn name params => (callFunction s name params).1
  | .pongReceived => onPongReceived s

/-- States a link can be in after construction and any sequence of entry
point invocations. -/
inductive Reachable (s₀ : LinkState) : LinkState → Prop where
  | init : Reachable s₀ s₀
  | step {s : LinkState} (a : Action) :
      Reachable s₀ s → Reachable s₀ (applyAction s a)

/-- The state after `n` calls of `generate_new_tid`. -/
def tidAfter (s : LinkState) : Nat → LinkState
  | 0 => s
  | n + 1 => (generateNewTid (tidAfter s n)).2

/-- The `n`-th transaction id (0-based) issued by a link's
`generate_new_tid` series. -/
def nthTid (s : LinkState) (n : Nat) : Int :=
  (generateNewTid (tidAfter s n)).1

/-! Helper lemmas about the container models. -/

theorem tidAfter_isServer (s : LinkState) (n : Nat) :
    (tidAfter s n).isServer = s.isServer := by
  induction n with
  | zero => rfl
  | succ n ih => simp [tidAfter, generateNewTid, ih]

theorem tidAfter_counter (s : LinkState) (n : Nat) :
    (tidAfter s n).tidCounter = s.tidCounter + n * tidStep s := by
  induction n with
  | zero => simp [tidAfter]
  | succ n ih =>
    simp only [tidAfter, generateNewTid, ih]
    have hstep : tidStep (tidAfter s n) = tidStep s := by
      simp [tidStep, tidAfter_isServer]
    rw [hstep]
    push_cast
    ring

theorem nthTid_eq (s : LinkState) (n : Nat) :
    nthTid s n = s.tidCounter + n * tidStep s := by
  simp [nthTid, generateNewTid, tidAfter_counter]

/-! Concrete fixtures used by witnesses and counterexamples. -/

/-- A listener whose user code returns normally. -/
def handlerOk : Handler := fun _ => .ok

/-- A listener whose user code throws an `std::exception` that is not
`std::out_of_range`. -/
def handlerThrows : Handler := fun _ => .raised .otherStd

/-- A fixed opaque payload. -/
def payload0 : JsonVal := ⟨"d"⟩

/-- A freshly constructed client link with link version 7, one incoming
event "E" and one outgoing event "F". -/
def clientBase : LinkState := initialLink false 7 ["E"] ["F"] [] []

/-- The peer's `auth` message satisfying all of `clientBase`'s
requirements. -/
def peerAuthMsg : AuthMsg :=
  { tid := 1, protoVersion := protoCurrent, linkVersion := 7,
    noPing := none, events := ["E"], dataSources := [], functions := [] }

/-- `clientBase` after the full handshake: connection established
(own `auth` sent with tid -1), peer's `auth` received and acknowledged,
peer's `auth_ack` for tid -1 received.  `authentication_done` is set. -/
def authedClient : LinkState :=
  (onMessage
    (onMessage (onConnectionEstablished clientBase).1 (.auth peerAuthMsg)).1
    (.authAck (-1))).1

/-- C9: `generate_new_tid` returns the running counter value before the
step is added; the counter starts at the step value, so the first issued
id is +1 for a server link and -1 for a client link, and the `n`-th id of
the series is `n + 1` (server) / `-(n + 1)` (client) — strictly monotonic
with step +1 resp. -1. -/
theorem tid_series_monotonic (linkVersion : Nat)
    (aInEv aOutEv aOutFn : List String) (fns : List (String × FnHandler))
    (n : Nat) :
    nthTid (initialLink true linkVersion aInEv aOutEv aOutFn fns) n =
      (n : Int) + 1 ∧
    nthTid (initialLink false linkVersion aInEv aOutEv aOutFn fns) n =
      -((n : Int) + 1) ∧
    nthTid (initialLink true linkVersion aInEv aOutEv aOutFn fns) (n + 1) =
      nthTid (initialLink true linkVersion aInEv aOutEv aOutFn fns) n + 1 ∧
    nthTid (initialLink false linkVersion aInEv aOutEv aOutFn fns) (n + 1) =
      nthTid (initialLink false linkVersion aInEv aOutEv aOutFn fns) n - 1 := by
  refine ⟨?_, ?_, ?_, ?_⟩ <;> simp [nthTid_eq, initialLink, tidStep] <;> ring

/-- C3 (counterexample): a client link with one pending outgoing
function-call transaction (created by `call`, so both completion hooks
are set) is destroyed; `~link` invokes no transaction error hook at all,
so the pending transaction's `on_error` is *not* called with any message,
let alone "connection closed". -/
def pendingCallState : LinkState :=
  (callFunction (initialLink false 7 [] [] ["Ping"] []) "Ping" payload0).1

/-- The property C3 claims of link teardown, following the spec's words:
every still-pending outgoing function-call transaction has its `on_error`
hook invoked (the spec mandates a "connection closed" message; this
predicate does not even insist on the message text). -/
def teardownReleasesPendingCalls (s : LinkState) (tr : TeardownTrace) : Prop :=
  ∀ p ∈ s.activeTransactions, p.2.kind = .functionCall →
    p.2.direction = .outgoing →
    ∃ info, (p.1, info) ∈ tr.errorHookCalls

/-- C3 is false on the code: `pendingCallState` has a pending outgoing
function-call transaction (tid -1, error hook set), and the destructor
trace contains no error-hook invocation. -/
theorem teardown_pending_call_counterexample :
    (∃ p ∈ pendingCallState.activeTransactions,
      p.2.kind = .functionCall ∧ p.2.direction = .outgoing ∧
      p.2.hasErrorHook = true) ∧
    ¬teardownReleasesPendingCalls pendingCallState
      (linkTeardown pendingCallState) := by
  constructor
  · exact ⟨(-1, ⟨.outgoing, .functionCall, true, true⟩), by decide, rfl, rfl, rfl⟩
  · intro h
    have := h (-1, ⟨.outgoing, .functionCall, true, true⟩) (by decide) rfl rfl
    simp [linkTeardown] at this

/-- C3 (amended): the link destructor only invalidates the registered
event subscriptions; it never invokes any transaction completion hook.
In particular a transaction pending after a successful `call` (outgoing,
function-call kind, error hook set) is simply dropped: awaiting futures
are only released through destruction of the promise, not through an
`on_error("connection closed")` call. -/
theorem teardown_invokes_no_error_hooks (s : LinkState) (name : String)
    (params : JsonVal)
    (hok : (callFunction s name params).2 = none) :
    lookupZ (callFunction s name params).1.activeTransactions s.tidCounter =
      some { direction := .outgoing, kind := .functionCall,
             hasResultHook := true, hasErrorHook := true } ∧
    (linkTeardown (callFunction s name params).1).errorHookCalls = [] ∧
    (linkTeardown (callFunction s name params).1).invalidatedSubs =
      s.subObjects.map (fun p => p.1) := by
  by_cases hdup : (lookupZ s.activeTransactions s.tidCounter).isSome
  · simp [callFunction, generateNewTid, lookupZ, hdup] at hok
    rw [if_pos (by simpa [lookupZ] using hdup)] at hok
    simp at hok
  · have hdup' : ¬((Option.map (fun p => p.2)
        (List.find? (fun p => decide (p.1 = s.tidCounter))
          s.activeTransactions)).isSome = true) := by
      simpa [lookupZ] using hdup
    refine ⟨?_, ?_, ?_⟩ <;>
      simp [callFunction, generateNewTid, lookupZ, linkTeardown,
        sendMessage, hdup']

theorem mem_setInsert_self (x : String) (l : List String) :
    x ∈ setInsert x l := by
  induction l with
  | nil => simp [setInsert]
  | cons y ys ih =>
    by_cases h1 : x < y
    · simp [setInsert, h1]
    · by_cases h2 : x = y
      · simp [setInsert, h1, h2]
      · simp [setInsert, h1, h2, ih]

/-- C4 (counterexample): `add_event_subscription` contains no validation
of the event name.  On a link whose `available_incoming_events` is empty,
registering a listener for "foo" raises nothing and fully registers the
subscription (multimap entry, object, activation) — contradicting the
claim that `InvalidIdentifier` is raised and nothing is registered. -/
def noAvailState : LinkState := initialLink false 1 [] [] [] []

/-- C4 is false on the code: registration proceeds for a name that is not
in `available_incoming_events`, with no error path at all. -/
theorem add_subscription_no_validation_counterexample :
    noAvailState.availableIncomingEvents.contains "foo" = false ∧
    (addEventSubscription noAvailState "foo" handlerOk).1.eventNamesToSubscriptionId
      = [("foo", 1)] ∧
    (addEventSubscription noAvailState "foo" handlerOk).1.activeIncomingEvents
      = ["foo"] ∧
    (addEventSubscription noAvailState "foo" handlerOk).2 = 1 :=
  ⟨rfl, rfl, rfl, rfl⟩

/-- C4 (amended): `add_event_subscription` performs no check against
`available_incoming_events` and has no failure path: for *every* name it
allocates the next sub id, registers the subscription in both indexes and
leaves the name active.  (The `define_event` callers insert the name into
`available_incoming_events` themselves before calling; only that
convention keeps the sets aligned.) -/
theorem add_subscription_registers_any_name (s : LinkState) (name : String)
    (h : Handler) :
    (addEventSubscription s name h).2 = s.subIdCounter + 1 ∧
    (addEventSubscription s name h).1.eventNamesToSubscriptionId =
      mmapEmplace s.eventNamesToSubscriptionId name (s.subIdCounter + 1) ∧
    lookupZ (addEventSubscription s name h).1.subObjects (s.subIdCounter + 1) =
      some { handler := some h, cancelFn := some (name, s.subIdCounter + 1) } ∧
    (addEventSubscription s name h).1.activeIncomingEvents.contains name
      = true := by
  unfold addEventSubscription generateNewSubId
  by_cases hact : name ∈ s.activeIncomingEvents
  · simp [hact, lookupZ]
  · by_cases hauth : s.authenticationDone
    · simp [hact, hauth, lookupZ, sendEventSubscribeMessage, generateNewTid,
        sendMessage, mem_setInsert_self]
    · simp [hact, hauth, lookupZ, mem_setInsert_self]

/-- The five-step check cascade of the handshake as C2 states it
(spec §4.1, "Handshake — receipt of auth from peer"), yielding the close
code of the first failing check: (1) protocol-version compatibility,
(2) link-version equality, (3) event requirements, (4) data-source
requirements, (5) function requirements.  The link defines no data
sources anywhere (there is no data-source catalog in the class), so the
data-source requirement set is the empty set and check (4) can never
fail; in the source it is correspondingly present only as the comment
"check data sources". -/
def authChecksSpec (s : LinkState) (a : AuthMsg) : Option CloseCode :=
  if protoGt protoCurrent a.protoVersion ∧ ¬isCompatible a.protoVersion then
    some .protoVersionIncompatible
  else if a.linkVersion ≠ s.linkVersion then
    some .linkVersionMismatch
  else if ¬subsetB s.availableIncomingEvents a.events then
    some .eventRequirementsNotSatisfied
  else if ¬subsetB ([] : List String) a.dataSources then
    some .dataSourceRequirementsNotSatisfied
  else if ¬subsetB s.availableOutgoingFunctions a.functions then
    some .functionRequirementsNotSatisfied
  else none

/-- C2: on receipt of an `auth` message the link raises exactly the close
code computed by the ordered check cascade `authChecksSpec` (and succeeds
exactly when every check passes), and the five check codes are pairwise
distinct.  Because the link's data-source requirement set is necessarily
empty, the cascade's check (4) never produces 3004. -/
theorem auth_checks_in_order (s : LinkState) (a : AuthMsg) :
    (handleMessagePreAuth s (.auth a)).2 =
      (authChecksSpec s a).map .incompatibleLink ∧
    ([CloseCode.protoVersionIncompatible, .linkVersionMismatch,
      .eventRequirementsNotSatisfied, .dataSourceRequirementsNotSatisfied,
      .functionRequirementsNotSatisfied].map closeCodeNum).Nodup := by
  constructor
  · unfold handleMessagePreAuth authChecksSpec
    cases hn : a.noPing <;> simp [hn, subsetB] <;> split_ifs <;> simp
  · simp [closeCodeNum]

/-- C7: before `authentication_done` is set (i.e. before both `auth_ack`
flags are up, since that flag is set exactly when both are), every
inbound message whose type is neither `auth` nor `auth_ack` raises a
protocol error and leaves the state untouched; after authentication,
`auth`/`auth_ack` raise a protocol error; and a `pong` message is always
ignored (warning only) with no state change. -/
theorem auth_gating_of_message_dispatch :
    (∀ (s : LinkState) (m : InMsg), wireTypeName m ≠ "pong" →
      (∀ a, m ≠ .auth a) → (∀ t, m ≠ .authAck t) →
      s.authenticationDone = false →
      onMessage s m = (s, some .protocolViolation)) ∧
    (∀ (s : LinkState) (m : InMsg),
      ((∃ a, m = .auth a) ∨ (∃ t, m = .authAck t)) →
      s.authenticationDone = true →
      onMessage s m = (s, some .protocolViolation)) ∧
    (∀ s : LinkState, onMessage s .pong = (s, none)) := by
  refine ⟨?_, ?_, ?_⟩
  · intro s m h1 h2 h3 h4
    cases m with
    | auth a => exact absurd rfl (h2 a)
    | authAck t => exact absurd rfl (h3 t)
    | pong => exact absurd rfl h1
    | _ => simp [onMessage, jsonCatch, wireTypeName, h4, handleMessagePreAuth]
  · intro s m hm hdone
    rcases hm with ⟨a, rfl⟩ | ⟨t, rfl⟩ <;>
      simp [onMessage, jsonCatch, wireTypeName, hdone, handleMessagePostAuth]
  · intro s
    simp [onMessage, jsonCatch, wireTypeName]

/-- Witness for the C7 theorem: concrete instances of all three parts
(an `evt_emit` before authentication, a late `auth` after
authentication, and a `pong`). -/
theorem auth_gating_of_message_dispatch_witness :
    onMessage clientBase (.evtEmit 5 "E" payload0) =
      (clientBase, some .protocolViolation) ∧
    onMessage authedClient (.auth peerAuthMsg) =
      (authedClient, some .protocolViolation) ∧
    onMessage clientBase .pong = (clientBase, none) := by
  refine ⟨?_, ?_, ?_⟩
  · exact auth_gating_of_message_dispatch.1 clientBase (.evtEmit 5 "E" payload0)
      (by decide) (fun a => by simp) (fun t => by simp) rfl
  · exact auth_gating_of_message_dispatch.2.1 authedClient (.auth peerAuthMsg)
      (Or.inl ⟨peerAuthMsg, rfl⟩) rfl
  · exact auth_gating_of_message_dispatch.2.2 clientBase

/-- The `LinkErr` that escapes the fan-out *loop* when a listener's
handler throws: `std::out_of_range` is captured by the loop's catch
clause and rethrown as `invalid_identifier_error`; any other exception
(including a `nlohmann::json::exception`, which `on_message` deals with
only further out) escapes as-is. -/
def handlerExcToErr : ExcKind → LinkErr
  | .outOfRange => .invalidIdentifier
  | .jsonExc => .jsonException
  | .otherStd => .userException

/-- The error the supervisor actually receives when a listener's handler
throws during fan-out: the loop turns `std::out_of_range` into
`invalid_identifier_error`, `on_message`'s catch turns a
`nlohmann::json::exception` into `malformed_message_error`, and any
other `std::exception` arrives unchanged. -/
def escapedHandlerErr : ExcKind → LinkErr
  | .outOfRange => .invalidIdentifier
  | .jsonExc => .malformedMessage
  | .otherStd => .userException

/-- The close code `escapedHandlerErr` maps to in the supervisor's
translation: 3006 for the json-exception path, 3100 otherwise. -/
def handlerFailureCloseCode : ExcKind → CloseCode
  | .jsonExc => .malformedMessage
  | _ => .undefinedLinkError

theorem jsonCatch_fst (r : LinkState × Option LinkErr) :
    (jsonCatch r).1 = r.1 := by
  rcases r with ⟨s, e⟩
  cases e with
  | none => rfl
  | some err => cases err <;> rfl

theorem mmapContains_iff_group_ne_nil (m : List (String × Int)) (k : String) :
    mmapContains m k = true ↔ mmapGroup m k ≠ [] := by
  induction m with
  | nil => simp [mmapContains, mmapGroup]
  | cons p rest ih =>
    by_cases hp : p.1 = k
    · simp [mmapContains, mmapGroup, List.any_eq_true, hp]
    · simp only [mmapContains, mmapGroup, List.any_eq_true] at ih ⊢
      simp [List.filter_cons, hp, ih]

/-- The sub id refers to a registered subscription whose handler runs the
given payload to normal completion. -/
def runsOk (s : LinkState) (d : JsonVal) (i : Int) : Prop :=
  ∃ obj h, lookupZ s.subObjects i = some obj ∧ obj.handler = some h ∧
    h d = .ok

/-- The sub id refers to a registered subscription whose handler throws
an exception of kind `k` on the given payload. -/
def raisesAt (s : LinkState) (d : JsonVal) (i : Int) (k : ExcKind) : Prop :=
  ∃ obj h, lookupZ s.subObjects i = some obj ∧ obj.handler = some h ∧
    h d = .raised k

/-- `authedClient` with two listeners on "E", registered in this order:
sub id 1 with a handler throwing a generic (non-json) `std::exception`,
sub id 2 with a well-behaved one. -/
def twoListenerState : LinkState :=
  (addEventSubscription
    (addEventSubscription authedClient "E" handlerThrows).1 "E" handlerOk).1

/-- A listener whose user code throws a `nlohmann::json::exception`
(the ordinary outcome of a failing payload decode in a `define_event`
wrapper handler). -/
def handlerRaisesJson : Handler := fun _ => .raised .jsonExc

/-- `authedClient` with two listeners on "E", registered in this order:
sub id 1 with a handler throwing a `nlohmann::json::exception`,
sub id 2 with a well-behaved one. -/
def jsonTwoListenerState : LinkState :=
  (addEventSubscription
    (addEventSubscription authedClient "E" handlerRaisesJson).1
    "E" handlerOk).1

/-- C1 is false on the code: with two listeners registered for "E"
(ids 1 then 2) and the first one throwing a generic `std::exception`,
processing one inbound `evt_emit` invokes only listener 1; listener 2 is
never invoked, the exception escapes `on_message`, and the supervisor
translates it into a close (code 3100 here) — the connection does not
stay open. -/
theorem fanout_continue_after_failure_counterexample :
    mmapGroup twoListenerState.eventNamesToSubscriptionId "E" = [1, 2] ∧
    (onMessage twoListenerState (.evtEmit 5 "E" payload0)).1.handlerCalls =
      [(1, payload0)] ∧
    (onMessage twoListenerState (.evtEmit 5 "E" payload0)).2 =
      some .userException ∧
    supervisorClose .userException = some .undefinedLinkError :=
  ⟨rfl, rfl, rfl, rfl⟩

theorem fanoutLoop_aborts (s : LinkState) (d : JsonVal)
    (pre : List Int) (bad : Int) (post : List Int) (k : ExcKind)
    (hpre : ∀ i ∈ pre, runsOk s d i)
    (hbad : raisesAt s d bad k) :
    fanoutLoop s (pre ++ bad :: post) d =
      ({ s with handlerCalls :=
          s.handlerCalls ++ ((pre ++ [bad]).map (fun i => (i, d))) },
       some (handlerExcToErr k)) := by
  induction pre generalizing s with
  | nil =>
    obtain ⟨obj, h, hl, hh, hr⟩ := hbad
    cases k <;> simp [fanoutLoop, hl, hh, hr, handlerExcToErr]
  | cons i pre ih =>
    obtain ⟨obj, h, hl, hh, hr⟩ := hpre i (by simp)
    have step : fanoutLoop s ((i :: pre) ++ bad :: post) d =
        fanoutLoop
          { s with handlerCalls := s.handlerCalls ++ [(i, d)] }
          (pre ++ bad :: post) d := by
      simp [fanoutLoop, hl, hh, hr]
    rw [step]
    have hpre' : ∀ j ∈ pre,
        runsOk { s with handlerCalls := s.handlerCalls ++ [(i, d)] } d j := by
      intro j hj
      exact hpre j (by simp [hj])
    have hbad' :
        raisesAt { s with handlerCalls := s.handlerCalls ++ [(i, d)] }
          d bad k := hbad
    rw [ih _ hpre' hbad']
    simp

/-- C1 (amended): a listener whose handler throws *aborts* the fan-out of
one inbound `evt_emit`: the listeners before it in iteration order ran,
it ran, none of the listeners after it are invoked, the exception
escapes `on_message`, and the supervisor closes the connection — with
code 3006 when the handler threw a `nlohmann::json::exception`
(converted to `malformed_message_error` by `on_message`'s catch; this is
the ordinary decode-failure path of every `define_event` wrapper
handler), and with code 3100 otherwise (`std::out_of_range` converted to
`invalid_identifier_error` by the loop's catch, any other
`std::exception` escaping as-is). -/
theorem fanout_aborts_on_handler_failure (s : LinkState) (d : JsonVal)
    (tid : Int) (name : String)
    (pre : List Int) (bad : Int) (post : List Int) (k : ExcKind)
    (hauth : s.authenticationDone = true)
    (hact : s.activeIncomingEvents.contains name = true)
    (hgrp : mmapGroup s.eventNamesToSubscriptionId name = pre ++ bad :: post)
    (hpre : ∀ i ∈ pre, runsOk s d i)
    (hbad : raisesAt s d bad k) :
    onMessage s (.evtEmit tid name d) =
      ({ s with handlerCalls :=
          s.handlerCalls ++ ((pre ++ [bad]).map (fun i => (i, d))) },
       some (escapedHandlerErr k)) ∧
    supervisorClose (escapedHandlerErr k) =
      some (handlerFailureCloseCode k) := by
  have hloop := fanoutLoop_aborts s d pre bad post k hpre hbad
  have hcone : mmapContains s.eventNamesToSubscriptionId name = true := by
    rw [mmapContains_iff_group_ne_nil, hgrp]
    simp
  have hmem : name ∈ s.activeIncomingEvents := by simpa using hact
  have hpost : handleMessagePostAuth s (.evtEmit tid name d) =
      ({ s with handlerCalls :=
          s.handlerCalls ++ ((pre ++ [bad]).map (fun i => (i, d))) },
       some (handlerExcToErr k)) := by
    simp only [handleMessagePostAuth]
    rw [if_neg (by simp [hmem, hcone]), hgrp]
    exact hloop
  constructor
  · simp only [onMessage]
    rw [if_neg (by simp [wireTypeName]), if_pos hauth, hpost]
    cases k <;> rfl
  · cases k <;> rfl

/-- Witness for the amended C1 theorem: the concrete two-listener state
whose first listener throws a json exception; the failing fan-out closes
with the malformed-message code. -/
theorem fanout_aborts_on_handler_failure_witness :
    onMessage jsonTwoListenerState (.evtEmit 5 "E" payload0) =
      ({ jsonTwoListenerState with handlerCalls :=
          jsonTwoListenerState.handlerCalls ++
            (([] ++ [1]).map (fun i => (i, payload0))) },
       some (escapedHandlerErr .jsonExc)) ∧
    supervisorClose (escapedHandlerErr .jsonExc) =
      some (handlerFailureCloseCode .jsonExc) :=
  fanout_aborts_on_handler_failure jsonTwoListenerState payload0 5 "E"
    [] 1 [2] .jsonExc rfl rfl rfl (by intro i hi; cases hi)
    ⟨{ handler := some handlerRaisesJson, cancelFn := some ("E", 1) },
      handlerRaisesJson, rfl, rfl, rfl⟩

theorem fanoutLoop_all_ok (s : LinkState) (d : JsonVal) (ids : List Int)
    (h : ∀ i ∈ ids, runsOk s d i) :
    fanoutLoop s ids d =
      ({ s with handlerCalls :=
          s.handlerCalls ++ (ids.map (fun i => (i, d))) }, none) := by
  induction ids generalizing s with
  | nil => simp [fanoutLoop]
  | cons i rest ih =>
    obtain ⟨obj, hf, hl, hh, hr⟩ := h i (by simp)
    have step : fanoutLoop s (i :: rest) d =
        fanoutLoop { s with handlerCalls := s.handlerCalls ++ [(i, d)] }
          rest d := by
      simp [fanoutLoop, hl, hh, hr]
    rw [step, ih { s with handlerCalls := s.handlerCalls ++ [(i, d)] }
      (fun j hj => h j (by simp [hj]))]
    simp

/-- `authedClient` with three well-behaved listeners registered on "E",
in the order sub id 1, sub id 2, sub id 3. -/
def threeListenerState : LinkState :=
  (addEventSubscription
    (addEventSubscription
      (addEventSubscription authedClient "E" handlerOk).1 "E" handlerOk).1
    "E" handlerOk).1

/-- C5 is false on the code: after registering listeners 1, 2, 3 for "E"
in that order, the multimap group for "E" is `[1, 3, 2]` (each new entry
is spliced directly after the group's first entry), so one inbound
`evt_emit` invokes the listeners as 1, 3, 2 — not in registration
order. -/
theorem fanout_not_registration_order_counterexample :
    mmapGroup threeListenerState.eventNamesToSubscriptionId "E" = [1, 3, 2] ∧
    (onMessage threeListenerState (.evtEmit 5 "E" payload0)).1.handlerCalls =
      [(1, payload0), (3, payload0), (2, payload0)] ∧
    [(1, payload0), (3, payload0), (2, payload0)] ≠
      [(1, payload0), (2, payload0), (3, payload0)] :=
  ⟨rfl, rfl, by decide⟩

theorem mmapGroup_emplace_after (m : List (String × Int)) (k : String)
    (v : Int) :
    mmapGroup (mmapEmplace m k v) k =
      match mmapGroup m k with
      | [] => [v]
      | x :: xs => x :: v :: xs := by
  induction m with
  | nil => simp [mmapEmplace, mmapGroup]
  | cons p rest ih =>
    by_cases hp : p.1 = k
    · simp [mmapEmplace, mmapGroup, List.filter_cons, hp]
    · simp [mmapEmplace, mmapGroup, List.filter_cons, hp] at ih ⊢
      exact ih

theorem mmapGroup_emplace_before (m : List (String × Int)) (k : String)
    (v : Int) :
    mmapGroup (mmapEmplaceBefore m k v) k = v :: mmapGroup m k := by
  induction m with
  | nil => simp [mmapEmplaceBefore, mmapGroup]
  | cons p rest ih =>
    by_cases hp : p.1 = k
    · simp [mmapEmplaceBefore, mmapGroup, List.filter_cons, hp]
    · simp [mmapEmplaceBefore, mmapGroup, List.filter_cons, hp] at ih ⊢
      exact ih

/-- Repeated `unordered_multimap::emplace` for one key under an
arbitrary mix of libstdc++'s two group-placement regimes: each entry
carries the Bool deciding whether it is placed directly after the
group's first entry (`true`: the small-table hint path, `mmapEmplace`)
or directly before it (`false`: the `_M_find_before_node` path,
`mmapEmplaceBefore`). -/
def emplaceSeq :
    List (String × Int) → String → List (Int × Bool) → List (String × Int)
  | m, _, [] => m
  | m, k, e :: rest =>
    emplaceSeq
      (if e.2 then mmapEmplace m k e.1 else mmapEmplaceBefore m k e.1)
      k rest

theorem emplaceSeq_append (m : List (String × Int)) (k : String)
    (l1 l2 : List (Int × Bool)) :
    emplaceSeq m k (l1 ++ l2) = emplaceSeq (emplaceSeq m k l1) k l2 := by
  induction l1 generalizing m with
  | nil => rfl
  | cons e rest ih =>
    simp only [List.cons_append, emplaceSeq]
    exact ih _

/-- C5 (amended): listeners are invoked in the iteration order of the
multimap's equal-key group, which is not registration order in general:
libstdc++ places each new entry for an already-listened event adjacent
to the *first* entry of its group — directly after it in the small-table
regime modelled by `mmapEmplace` (the regime of the concrete scenarios
here, where three listeners registered 1,2,3 fan out as 1,3,2), and
directly before it in the other regime (`mmapEmplaceBefore`) — and under
every mix of the two placements a third or later listener never ends up
last, so with three or more distinct listeners the invocation order can
never be registration order. -/
theorem fanout_order_follows_multimap_group :
    (∀ (m : List (String × Int)) (k : String) (v : Int),
      mmapGroup (mmapEmplace m k v) k =
        match mmapGroup m k with
        | [] => [v]
        | x :: xs => x :: v :: xs) ∧
    (∀ (s : LinkState) (tid : Int) (name : String) (d : JsonVal),
      s.activeIncomingEvents.contains name = true →
      (∀ i ∈ mmapGroup s.eventNamesToSubscriptionId name, runsOk s d i) →
      handleMessagePostAuth s (.evtEmit tid name d) =
        ({ s with handlerCalls := s.handlerCalls ++
            ((mmapGroup s.eventNamesToSubscriptionId name).map
              (fun i => (i, d))) }, none)) ∧
    (∀ (k : String) (entries : List (Int × Bool)),
      (entries.map (fun e => e.1)).Nodup → 3 ≤ entries.length →
      mmapGroup (emplaceSeq [] k entries) k ≠
        entries.map (fun e => e.1)) := by
  refine ⟨mmapGroup_emplace_after, ?_, ?_⟩
  · intro s tid name d hact hall
    by_cases hgrp : mmapGroup s.eventNamesToSubscriptionId name = []
    · have hcon : mmapContains s.eventNamesToSubscriptionId name = false := by
        rcases h : mmapContains s.eventNamesToSubscriptionId name with _ | _
        · rfl
        · exact absurd hgrp ((mmapContains_iff_group_ne_nil _ _).mp h)
      simp [handleMessagePostAuth, hcon, hgrp]
    · have hcon : mmapContains s.eventNamesToSubscriptionId name = true :=
        (mmapContains_iff_group_ne_nil _ _).mpr hgrp
      have hmem : name ∈ s.activeIncomingEvents := by
        simpa using hact
      simp only [handleMessagePostAuth, hcon, hmem]
      rw [if_neg (by simp [hmem, hcon])]
      exact fanoutLoop_all_ok s d _ hall
  · intro k entries hnodup hlen hcontra
    rcases List.eq_nil_or_concat entries with rfl | ⟨init, e, rfl⟩
    · simp at hlen
    · rw [List.concat_eq_append] at hnodup hlen hcontra
      rw [emplaceSeq_append] at hcontra
      have hstep : emplaceSeq (emplaceSeq [] k init) k [e] =
          (if e.2 then mmapEmplace (emplaceSeq [] k init) k e.1
            else mmapEmplaceBefore (emplaceSeq [] k init) k e.1) := rfl
      rw [hstep, List.map_append] at hcontra
      rw [List.map_append] at hnodup
      have hvnot : e.1 ∉ init.map (fun e => e.1) := by
        intro hmem
        exact (List.nodup_append.mp hnodup).2.2 hmem (by simp)
      have hinitlen : 2 ≤ init.length := by
        have : (init ++ [e]).length = init.length + 1 := by simp
        omega
      rcases init with _ | ⟨i1, init'⟩
      · simp at hinitlen
      rcases init' with _ | ⟨i2, init''⟩
      · simp at hinitlen
      by_cases hb : e.2 = true
      · rw [if_pos hb, mmapGroup_emplace_after] at hcontra
        cases hg1 : mmapGroup (emplaceSeq [] k (i1 :: i2 :: init'')) k with
        | nil =>
          rw [hg1] at hcontra
          simp at hcontra
        | cons x xs =>
          rw [hg1] at hcontra
          simp only [List.map_cons, List.cons_append, List.cons.injEq]
            at hcontra
          exact hvnot (by simp [hcontra.2.1])
      · rw [if_neg hb, mmapGroup_emplace_before] at hcontra
        simp only [List.map_cons, List.cons_append, List.cons.injEq]
          at hcontra
        exact hvnot (by simp [hcontra.1])

/-- Witness for the amended C5 theorem: the three-listener state (group
"E" is `[1, 3, 2]`, fan-out invokes exactly that order), and a mixed
three-insertion sequence whose group differs from registration order. -/
theorem fanout_order_follows_multimap_group_witness :
    mmapGroup (mmapEmplace [("E", 1), ("E", 2)] "E" 3) "E" = [1, 3, 2] ∧
    handleMessagePostAuth threeListenerState (.evtEmit 5 "E" payload0) =
      ({ threeListenerState with handlerCalls :=
          threeListenerState.handlerCalls ++
            ((mmapGroup threeListenerState.eventNamesToSubscriptionId "E").map
              (fun i => (i, payload0))) }, none) ∧
    mmapGroup (emplaceSeq [] "E" [(1, true), (2, false), (3, true)]) "E" ≠
      [1, 2, 3] := by
  refine ⟨?_, ?_, ?_⟩
  · have h := fanout_order_follows_multimap_group.1 [("E", 1), ("E", 2)] "E" 3
    simpa using h
  · refine fanout_order_follows_multimap_group.2.1 threeListenerState 5 "E"
      payload0 rfl ?_
    intro i hi
    have hg : mmapGroup threeListenerState.eventNamesToSubscriptionId "E" =
        [1, 3, 2] := rfl
    rw [hg] at hi
    simp only [List.mem_cons, List.not_mem_nil, or_false] at hi
    rcases hi with rfl | rfl | rfl
    · exact ⟨{ handler := some handlerOk, cancelFn := some ("E", 1) },
        handlerOk, rfl, rfl, rfl⟩
    · exact ⟨{ handler := some handlerOk, cancelFn := some ("E", 3) },
        handlerOk, rfl, rfl, rfl⟩
    · exact ⟨{ handler := some handlerOk, cancelFn := some ("E", 2) },
        handlerOk, rfl, rfl, rfl⟩
  · exact fanout_order_follows_multimap_group.2.2 "E"
      [(1, true), (2, false), (3, true)] (by decide) (by decide)

theorem lookupZ_updateZ {α : Type} (m : List (Int × α)) (k : Int)
    (f : α → α) :
    lookupZ (updateZ m k f) k = (lookupZ m k).map f := by
  induction m with
  | nil => rfl
  | cons p rest ih =>
    simp only [updateZ, List.map_cons, lookupZ] at ih ⊢
    by_cases hp : p.1 = k
    · rw [if_pos hp,
        List.find?_cons_of_pos _ (by simp [hp]),
        List.find?_cons_of_pos _ (by simp [hp])]
      rfl
    · rw [if_neg hp,
        List.find?_cons_of_neg _ (by simp [hp]),
        List.find?_cons_of_neg _ (by simp [hp])]
      exact ih

/-- C8: cancelling is idempotent (a second `cancel` on the same
subscription is a no-op), cancelling the last listener of an event
removes the name from `active_incoming_events` and sends exactly one
`evt_unsub` for it when authenticated, and cancelling while other
listeners for the name remain sends nothing. -/
theorem cancel_idempotent_and_unsub_behavior :
    (∀ (s s' : LinkState) (subId : Int),
      cancelSubscription s subId = (s', none) →
      cancelSubscription s' subId = (s', none)) ∧
    (∀ (s : LinkState) (name : String) (subId : Int) (obj : SubObj),
      lookupZ s.subObjects subId = some obj →
      obj.cancelFn = some (name, subId) →
      mmapGroup s.eventNamesToSubscriptionId name = [subId] →
      s.authenticationDone = true →
      (cancelSubscription s subId).2 = none ∧
      (cancelSubscription s subId).1.sentMessages =
        s.sentMessages ++ [.evtUnsub s.tidCounter name] ∧
      (cancelSubscription s subId).1.activeIncomingEvents =
        setErase name s.activeIncomingEvents) ∧
    (∀ (s : LinkState) (name : String) (subId : Int) (obj : SubObj),
      lookupZ s.subObjects subId = some obj →
      obj.cancelFn = some (name, subId) →
      subId ∈ mmapGroup s.eventNamesToSubscriptionId name →
      2 ≤ (mmapGroup s.eventNamesToSubscriptionId name).length →
      (cancelSubscription s subId).2 = none ∧
      (cancelSubscription s subId).1.sentMessages = s.sentMessages) := by
  refine ⟨?_, ?_, ?_⟩
  · intro s s' subId hfirst
    cases hl : lookupZ s.subObjects subId with
    | none =>
      simp [cancelSubscription, hl] at hfirst
      rw [← hfirst]
      simp [cancelSubscription, hl]
    | some obj =>
      cases hcf : obj.cancelFn with
      | none =>
        simp [cancelSubscription, hl, hcf] at hfirst
        rw [← hfirst]
        simp [cancelSubscription, hl, hcf]
      | some pair =>
        obtain ⟨name, i⟩ := pair
        rcases hrem : removeEventSubscription s name i with ⟨s1, e⟩
        cases e with
        | some err =>
          simp [cancelSubscription, hl, hcf, hrem] at hfirst
        | none =>
          simp only [cancelSubscription, hl, hcf, hrem] at hfirst
          rw [Prod.mk.injEq] at hfirst
          rw [← hfirst.1]
          cases hl1 : lookupZ s1.subObjects subId with
          | none =>
            have : lookupZ (updateZ s1.subObjects subId
                (fun o => { o with cancelFn := none })) subId = none := by
              rw [lookupZ_updateZ, hl1]; rfl
            simp [cancelSubscription, this]
          | some o =>
            have : lookupZ (updateZ s1.subObjects subId
                (fun o => { o with cancelFn := none })) subId =
                some { o with cancelFn := none } := by
              rw [lookupZ_updateZ, hl1]; rfl
            simp [cancelSubscription, this]
  · intro s name subId obj hl hcf hg hauth
    have hfound : (mmapGroup s.eventNamesToSubscriptionId name).contains subId
        = true := by simp [hg]
    refine ⟨?_, ?_, ?_⟩ <;>
      simp [cancelSubscription, hl, hcf, removeEventSubscription, hg, hauth,
        sendEventUnsubscribeMessage, generateNewTid, sendMessage, lookupZ_updateZ]
  · intro s name subId obj hl hcf hmem hlen
    have hcont : (mmapGroup s.eventNamesToSubscriptionId name).contains subId
        = true := by simpa using hmem
    have hrem : ¬((mmapGroup s.eventNamesToSubscriptionId name).length - 1
        = 0) := by omega
    refine ⟨?_, ?_⟩ <;>
      simp [cancelSubscription, hl, hcf, removeEventSubscription, hmem, hcont,
        hrem, lookupZ_updateZ]

/-- `authedClient` with two well-behaved listeners on "E"
(sub ids 1 and 2). -/
def twoOkState : LinkState :=
  (addEventSubscription
    (addEventSubscription authedClient "E" handlerOk).1 "E" handlerOk).1

/-- `twoOkState` after cancelling subscription 1 (listener 2 remains). -/
def afterCancelOne : LinkState := (cancelSubscription twoOkState 1).1

/-- Witness for the C8 theorem: cancelling listener 1 of two sends
nothing, a repeated cancel is a no-op, and cancelling the last listener
sends exactly one `evt_unsub` and deactivates the event. -/
theorem cancel_idempotent_and_unsub_behavior_witness :
    ((cancelSubscription twoOkState 1).2 = none ∧
      (cancelSubscription twoOkState 1).1.sentMessages =
        twoOkState.sentMessages) ∧
    cancelSubscription afterCancelOne 1 = (afterCancelOne, none) ∧
    ((cancelSubscription afterCancelOne 2).2 = none ∧
      (cancelSubscription afterCancelOne 2).1.sentMessages =
        afterCancelOne.sentMessages ++
          [.evtUnsub afterCancelOne.tidCounter "E"] ∧
      (cancelSubscription afterCancelOne 2).1.activeIncomingEvents =
        setErase "E" afterCancelOne.activeIncomingEvents) := by
  refine ⟨?_, ?_, ?_⟩
  · exact cancel_idempotent_and_unsub_behavior.2.2 twoOkState "E" 1
      { handler := some handlerOk, cancelFn := some ("E", 1) }
      rfl rfl (by decide) (by decide)
  · exact cancel_idempotent_and_unsub_behavior.1 twoOkState afterCancelOne 1
      rfl
  · exact cancel_idempotent_and_unsub_behavior.2.1 afterCancelOne "E" 2
      { handler := some handlerOk, cancelFn := some ("E", 2) }
      rfl rfl rfl rfl

theorem mem_setInsert (x y : String) (l : List String) :
    y ∈ setInsert x l ↔ y = x ∨ y ∈ l := by
  induction l with
  | nil => simp [setInsert]
  | cons z zs ih =>
    by_cases h1 : x < z
    · simp [setInsert, h1]
    · by_cases h2 : x = z
      · subst h2
        simp [setInsert, h1]
      · simp [setInsert, h1, h2, ih]
        tauto

theorem mem_setErase (x y : String) (l : List String) :
    y ∈ setErase x l ↔ y ∈ l ∧ y ≠ x := by
  simp [setErase]

theorem mem_mmapEmplace (m : List (String × Int)) (k : String) (v : Int)
    (q : String × Int) :
    q ∈ mmapEmplace m k v ↔ q ∈ m ∨ q = (k, v) := by
  induction m with
  | nil => simp [mmapEmplace]
  | cons p rest ih =>
    by_cases hp : p.1 = k
    · simp [mmapEmplace, hp]
      tauto
    · simp [mmapEmplace, hp, ih]
      tauto

theorem mmapContains_emplace (m : List (String × Int)) (k : String) (v : Int)
    (x : String) :
    mmapContains (mmapEmplace m k v) x = true ↔
      mmapContains m x = true ∨ x = k := by
  simp only [mmapContains, List.any_eq_true]
  constructor
  · rintro ⟨p, hp, he⟩
    rcases (mem_mmapEmplace m k v p).mp hp with h | rfl
    · exact Or.inl ⟨p, h, he⟩
    · simp at he
      exact Or.inr he.symm
  · rintro (⟨p, hp, he⟩ | rfl)
    · exact ⟨p, (mem_mmapEmplace m k v p).mpr (Or.inl hp), he⟩
    · exact ⟨(x, v), (mem_mmapEmplace m x v _).mpr (Or.inr rfl), by simp⟩

theorem mmapGroup_eraseEntry_self (m : List (String × Int)) (k : String)
    (v : Int) :
    mmapGroup (mmapEraseEntry m k v) k = (mmapGroup m k).erase v := by
  induction m with
  | nil => simp [mmapEraseEntry, mmapGroup]
  | cons p rest ih =>
    by_cases hpv : p = (k, v)
    · subst hpv
      simp [mmapEraseEntry, mmapGroup, List.filter_cons]
    · by_cases hp : p.1 = k
      · have hv : p.2 ≠ v := by
          intro h
          exact hpv (Prod.ext hp h)
        simp [mmapEraseEntry, mmapGroup, List.filter_cons, hp, hpv] at ih ⊢
        rw [List.erase_cons_tail (by simpa using hv)]
        simpa using ih
      · simp [mmapEraseEntry, mmapGroup, List.filter_cons, hp, hpv] at ih ⊢
        exact ih

theorem mmapContains_eraseEntry_ne (m : List (String × Int)) (k : String)
    (v : Int) (x : String) (hx : x ≠ k) :
    mmapContains (mmapEraseEntry m k v) x = mmapContains m x := by
  induction m with
  | nil => simp [mmapEraseEntry]
  | cons p rest ih =>
    by_cases hpv : p = (k, v)
    · subst hpv
      simp [mmapEraseEntry, mmapContains, Ne.symm hx]
    · simp [mmapEraseEntry, mmapContains, hpv] at ih ⊢
      rw [ih]

/-- The consistency invariant of C6 between `active_incoming_events` and
the `event_names_to_subscription_id` multimap, as an executable check. -/
def consistentB (s : LinkState) : Bool :=
  s.activeIncomingEvents.all
    (fun n => mmapContains s.eventNamesToSubscriptionId n) &&
  s.eventNamesToSubscriptionId.all
    (fun p => s.activeIncomingEvents.contains p.1)

/-- The invariant in relational form. -/
def ConsistentP (s : LinkState) : Prop :=
  ∀ x, x ∈ s.activeIncomingEvents ↔
    mmapContains s.eventNamesToSubscriptionId x = true

theorem consistentB_iff (s : LinkState) :
    consistentB s = true ↔ ConsistentP s := by
  simp only [consistentB, ConsistentP, Bool.and_eq_true, List.all_eq_true]
  constructor
  · rintro ⟨h1, h2⟩ x
    constructor
    · exact h1 x
    · intro hx
      simp only [mmapContains, List.any_eq_true] at hx
      obtain ⟨p, hp, he⟩ := hx
      have := h2 p hp
      simp at he
      rw [← he]
      simpa using this
  · intro h
    constructor
    · exact fun x hx => (h x).mp hx
    · intro p hp
      have : mmapContains s.eventNamesToSubscriptionId p.1 = true := by
        simp only [mmapContains, List.any_eq_true]
        exact ⟨p, hp, by simp⟩
      simpa using (h p.1).mpr this

/-- One subscription-table operation: a listener registration or a
cancellation. -/
inductive SubOp where
  | add (name : String) (h : Handler)
  | remove (name : String) (subId : Int)

/-- Run one subscription-table operation. -/
def applySubOp (s : LinkState) : SubOp → LinkState
  | .add name h => (addEventSubscription s name h).1
  | .remove name subId => (removeEventSubscription s name subId).1

/-- Run a sequence of subscription-table operations. -/
def applySubOps (s : LinkState) (ops : List SubOp) : LinkState :=
  ops.foldl applySubOp s

theorem add_projections (s : LinkState) (n : String) (h : Handler) :
    (addEventSubscription s n h).1.activeIncomingEvents =
      (if n ∈ s.activeIncomingEvents then s.activeIncomingEvents
        else setInsert n s.activeIncomingEvents) ∧
    (addEventSubscription s n h).1.eventNamesToSubscriptionId =
      mmapEmplace s.eventNamesToSubscriptionId n (s.subIdCounter + 1) := by
  by_cases hact : n ∈ s.activeIncomingEvents
  · simp [addEventSubscription, generateNewSubId, hact]
  · by_cases hauth : s.authenticationDone <;>
      simp [addEventSubscription, generateNewSubId, hact, hauth,
        sendEventSubscribeMessage, generateNewTid, sendMessage]

theorem remove_projections (s : LinkState) (n : String) (i : Int) :
    (removeEventSubscription s n i).1.activeIncomingEvents =
      (if (mmapGroup s.eventNamesToSubscriptionId n).length -
          (if i ∈ mmapGroup s.eventNamesToSubscriptionId n then 1 else 0) = 0
        then setErase n s.activeIncomingEvents
        else s.activeIncomingEvents) ∧
    (removeEventSubscription s n i).1.eventNamesToSubscriptionId =
      (if i ∈ mmapGroup s.eventNamesToSubscriptionId n
        then mmapEraseEntry s.eventNamesToSubscriptionId n i
        else s.eventNamesToSubscriptionId) := by
  unfold removeEventSubscription
  by_cases hf : i ∈ mmapGroup s.eventNamesToSubscriptionId n <;>
    by_cases hr0 : (mmapGroup s.eventNamesToSubscriptionId n).length -
      (if i ∈ mmapGroup s.eventNamesToSubscriptionId n then 1 else 0) = 0 <;>
    by_cases hauth : s.authenticationDone <;>
    simp only [hf, hr0, hauth, if_true, if_false, List.elem_iff,
      decide_eq_true_eq] <;>
    (cases hl : lookupZ
        (if (mmapGroup s.eventNamesToSubscriptionId n).contains i = true
          then { s with eventNamesToSubscriptionId :=
              mmapEraseEntry s.eventNamesToSubscriptionId n i }
          else s).subObjects i <;>
      simp_all [sendEventUnsubscribeMessage, generateNewTid, sendMessage])

theorem consistent_add (s : LinkState) (n : String) (h : Handler)
    (hc : ConsistentP s) : ConsistentP (addEventSubscription s n h).1 := by
  intro x
  obtain ⟨ha, hm⟩ := add_projections s n h
  rw [ha, hm]
  by_cases hact : n ∈ s.activeIncomingEvents
  · simp only [if_pos hact, mmapContains_emplace]
    have hx := hc x
    constructor
    · intro h1
      exact Or.inl (hx.mp h1)
    · rintro (h1 | rfl)
      · exact hx.mpr h1
      · exact hact
  · simp only [if_neg hact, mem_setInsert, mmapContains_emplace]
    have hx := hc x
    tauto

theorem consistent_remove (s : LinkState) (n : String) (i : Int)
    (hc : ConsistentP s) : ConsistentP (removeEventSubscription s n i).1 := by
  intro x
  obtain ⟨ha, hm⟩ := remove_projections s n i
  rw [ha, hm]
  by_cases hx : x = n
  · subst hx
    by_cases hf : i ∈ mmapGroup s.eventNamesToSubscriptionId x
    · have hGne : mmapGroup s.eventNamesToSubscriptionId x ≠ [] := by
        intro hnil
        rw [hnil] at hf
        cases hf
      by_cases h1 : (mmapGroup s.eventNamesToSubscriptionId x).length = 1
      · have hcond : (mmapGroup s.eventNamesToSubscriptionId x).length -
            (if i ∈ mmapGroup s.eventNamesToSubscriptionId x then 1 else 0)
            = 0 := by
          rw [if_pos hf, h1]
        obtain ⟨a, hGa⟩ := List.length_eq_one.mp h1
        have hai : i = a := by
          rw [hGa] at hf
          simpa using hf
        subst hai
        rw [if_pos hcond, if_pos hf]
        constructor
        · intro hmem
          exact absurd rfl ((mem_setErase x x _).mp hmem).2
        · intro hcon
          have := (mmapContains_iff_group_ne_nil _ x).mp hcon
          rw [mmapGroup_eraseEntry_self, hGa] at this
          simp at this
      · have hlen2 : 2 ≤ (mmapGroup s.eventNamesToSubscriptionId x).length := by
          have : 1 ≤ (mmapGroup s.eventNamesToSubscriptionId x).length :=
            List.length_pos.mpr hGne
          omega
        have hcond : ¬((mmapGroup s.eventNamesToSubscriptionId x).length -
            (if i ∈ mmapGroup s.eventNamesToSubscriptionId x then 1 else 0)
            = 0) := by
          rw [if_pos hf]
          omega
        rw [if_neg hcond, if_pos hf]
        have hlhs : x ∈ s.activeIncomingEvents :=
          (hc x).mpr ((mmapContains_iff_group_ne_nil _ x).mpr hGne)
        have hrhs : mmapContains
            (mmapEraseEntry s.eventNamesToSubscriptionId x i) x = true := by
          rw [mmapContains_iff_group_ne_nil, mmapGroup_eraseEntry_self]
          intro hnil
          have := List.length_erase_of_mem hf
          rw [hnil] at this
          simp at this
          omega
        simp [hlhs, hrhs]
    · by_cases hG : mmapGroup s.eventNamesToSubscriptionId x = []
      · have hcond : (mmapGroup s.eventNamesToSubscriptionId x).length -
            (if i ∈ mmapGroup s.eventNamesToSubscriptionId x then 1 else 0)
            = 0 := by
          rw [if_neg hf, hG]
          rfl
        rw [if_pos hcond, if_neg hf]
        constructor
        · intro hmem
          exact absurd rfl ((mem_setErase x x _).mp hmem).2
        · intro hcon
          exact absurd ((mmapContains_iff_group_ne_nil _ x).mp hcon) (by
            simp [hG])
      · have hcond : ¬((mmapGroup s.eventNamesToSubscriptionId x).length -
            (if i ∈ mmapGroup s.eventNamesToSubscriptionId x then 1 else 0)
            = 0) := by
          rw [if_neg hf]
          have : 1 ≤ (mmapGroup s.eventNamesToSubscriptionId x).length :=
            List.length_pos.mpr hG
          omega
        rw [if_neg hcond, if_neg hf]
        exact hc x
  · have hmm : ∀ v,
        mmapContains (mmapEraseEntry s.eventNamesToSubscriptionId n v) x =
          mmapContains s.eventNamesToSubscriptionId x :=
      fun v => mmapContains_eraseEntry_ne _ n v x hx
    have hac : ∀ c : Prop, ∀ hdec : Decidable c,
        (x ∈ (if c then setErase n s.activeIncomingEvents
          else s.activeIncomingEvents) ↔ x ∈ s.activeIncomingEvents) := by
      intro c hdec
      split_ifs with hcnd
      · rw [mem_setErase]
        simp [hx]
      · rfl
    rw [hac _ _]
    split_ifs with hfnd
    · rw [hmm i]
      exact hc x
    · exact hc x

theorem subops_consistent (ops : List SubOp) (s : LinkState)
    (hc : ConsistentP s) : ConsistentP (applySubOps s ops) := by
  induction ops generalizing s with
  | nil => exact hc
  | cons op rest ih =>
    cases op with
    | add name h =>
      exact ih _ (consistent_add s name h hc)
    | remove name subId =>
      exact ih _ (consistent_remove s name subId hc)

/-- C6: after every sequence of listener registrations
(`add_event_subscription`) and cancellations
(`remove_event_subscription`) on a freshly constructed link, a name is in
`active_incoming_events` iff the `event_names_to_subscription_id` table
holds at least one entry for it. -/
theorem active_incoming_consistent_with_subtable (isServer : Bool)
    (linkVersion : Nat) (aInEv aOutEv aOutFn : List String)
    (fns : List (String × FnHandler)) (ops : List SubOp) :
    consistentB (applySubOps
      (initialLink isServer linkVersion aInEv aOutEv aOutFn fns) ops)
      = true := by
  rw [consistentB_iff]
  apply subops_consistent
  intro x
  simp [initialLink, mmapContains]

theorem foldlSend_activeOutgoing (l : List String) (s : LinkState) :
    (l.foldl sendEventSubscribeMessage s).activeOutgoingEvents =
      s.activeOutgoingEvents := by
  induction l generalizing s with
  | nil => rfl
  | cons x xs ih =>
    simp [List.foldl_cons, ih, sendEventSubscribeMessage, generateNewTid,
      sendMessage]

theorem updateAuthDone_activeOutgoing (s : LinkState) :
    (updateAuthDone s).activeOutgoingEvents = s.activeOutgoingEvents := by
  unfold updateAuthDone onAuthenticationDone
  split_ifs with h
  · rw [foldlSend_activeOutgoing]
  · rfl

theorem handleMessagePreAuth_activeOutgoing (s : LinkState) (m : InMsg) :
    (handleMessagePreAuth s m).1.activeOutgoingEvents =
      s.activeOutgoingEvents := by
  cases m with
  | auth a =>
    simp only [handleMessagePreAuth]
    cases hn : a.noPing <;>
      split_ifs <;>
      simp [updateAuthDone_activeOutgoing, sendMessage]
  | authAck t =>
    cases hl : lookupZ s.activeTransactions t
    · simp [handleMessagePreAuth, hl]
    · simp only [handleMessagePreAuth, hl]
      split_ifs <;> simp [updateAuthDone_activeOutgoing]
  | _ => rfl

theorem fanoutLoop_authDone (s : LinkState) (ids : List Int) (d : JsonVal) :
    (fanoutLoop s ids d).1.authenticationDone = s.authenticationDone := by
  induction ids generalizing s with
  | nil => rfl
  | cons i rest ih =>
    cases hl : lookupZ s.subObjects i
    · simp [fanoutLoop, hl]
    · rename_i obj
      cases hh : obj.handler
      · simp only [fanoutLoop, hl, hh]
        exact ih s
      · rename_i h
        cases hr : h d with
        | ok =>
          simp only [fanoutLoop, hl, hh, hr]
          rw [ih]
        | raised k => cases k <;> simp [fanoutLoop, hl, hh, hr]

theorem handleMessagePostAuth_authDone (s : LinkState) (m : InMsg) :
    (handleMessagePostAuth s m).1.authenticationDone =
      s.authenticationDone := by
  cases m with
  | evtSub t name => simp only [handleMessagePostAuth]; split_ifs <;> rfl
  | evtUnsub t name => simp only [handleMessagePostAuth]; split_ifs <;> rfl
  | evtEmit t name d =>
    simp only [handleMessagePostAuth]
    split_ifs
    · rfl
    · rw [fanoutLoop_authDone]
  | funcCall t name params =>
    simp only [handleMessagePostAuth]
    cases hl : lookupS s.incomingFunctions name
    · rfl
    · rename_i f
      cases hf : f params <;> simp [hf, sendMessage]
  | funcErr t info =>
    cases hl : lookupZ s.activeTransactions t
    · simp [handleMessagePostAuth, hl]
    · simp only [handleMessagePostAuth, hl]
      split_ifs <;> rfl
  | funcResult t results =>
    cases hl : lookupZ s.activeTransactions t
    · simp [handleMessagePostAuth, hl]
    · simp only [handleMessagePostAuth, hl]
      split_ifs <;> rfl
  | _ => rfl

theorem addEventSubscription_authDone (s : LinkState) (n : String)
    (h : Handler) :
    (addEventSubscription s n h).1.authenticationDone =
      s.authenticationDone := by
  unfold addEventSubscription generateNewSubId
  dsimp only
  split_ifs <;>
    simp [sendEventSubscribeMessage, generateNewTid, sendMessage]

theorem removeEventSubscription_authDone (s : LinkState) (n : String)
    (i : Int) :
    (removeEventSubscription s n i).1.authenticationDone =
      s.authenticationDone := by
  unfold removeEventSubscription
  by_cases hf : i ∈ mmapGroup s.eventNamesToSubscriptionId n <;>
    by_cases hr0 : (mmapGroup s.eventNamesToSubscriptionId n).length -
      (if i ∈ mmapGroup s.eventNamesToSubscriptionId n then 1 else 0) = 0 <;>
    by_cases hauth : s.authenticationDone <;>
    simp only [hf, hr0, hauth, if_true, if_false, List.elem_iff,
      decide_eq_true_eq] <;>
    (cases hl : lookupZ
        (if (mmapGroup s.eventNamesToSubscriptionId n).contains i = true
          then { s with eventNamesToSubscriptionId :=
              mmapEraseEntry s.eventNamesToSubscriptionId n i }
          else s).subObjects i <;>
      simp_all [sendEventUnsubscribeMessage, generateNewTid, sendMessage])

theorem removeEventSubscription_activeOutgoing (s : LinkState) (n : String)
    (i : Int) :
    (removeEventSubscription s n i).1.activeOutgoingEvents =
      s.activeOutgoingEvents := by
  unfold removeEventSubscription
  by_cases hf : i ∈ mmapGroup s.eventNamesToSubscriptionId n <;>
    by_cases hr0 : (mmapGroup s.eventNamesToSubscriptionId n).length -
      (if i ∈ mmapGroup s.eventNamesToSubscriptionId n then 1 else 0) = 0 <;>
    by_cases hauth : s.authenticationDone <;>
    simp only [hf, hr0, hauth, if_true, if_false, List.elem_iff,
      decide_eq_true_eq] <;>
    (cases hl : lookupZ
        (if (mmapGroup s.eventNamesToSubscriptionId n).contains i = true
          then { s with eventNamesToSubscriptionId :=
              mmapEraseEntry s.eventNamesToSubscriptionId n i }
          else s).subObjects i <;>
      simp_all [sendEventUnsubscribeMessage, generateNewTid, sendMessage])

theorem addEventSubscription_activeOutgoing (s : LinkState) (n : String)
    (h : Handler) :
    (addEventSubscription s n h).1.activeOutgoingEvents =
      s.activeOutgoingEvents := by
  unfold addEventSubscription generateNewSubId
  dsimp only
  split_ifs <;>
    simp [sendEventSubscribeMessage, generateNewTid, sendMessage]

theorem cancelSubscription_authDone (s : LinkState) (i : Int) :
    (cancelSubscription s i).1.authenticationDone =
      s.authenticationDone := by
  cases hl : lookupZ s.subObjects i with
  | none => simp [cancelSubscription, hl]
  | some obj =>
    cases hcf : obj.cancelFn with
    | none => simp [cancelSubscription, hl, hcf]
    | some pair =>
      rcases pair with ⟨nm, ci⟩
      rcases hrem : removeEventSubscription s nm ci with ⟨s1, e⟩
      have h2 := removeEventSubscription_authDone s nm ci
      rw [hrem] at h2
      cases e <;> simp [cancelSubscription, hl, hcf, hrem] <;>
        simpa using h2

theorem cancelSubscription_activeOutgoing (s : LinkState) (i : Int) :
    (cancelSubscription s i).1.activeOutgoingEvents =
      s.activeOutgoingEvents := by
  cases hl : lookupZ s.subObjects i with
  | none => simp [cancelSubscription, hl]
  | some obj =>
    cases hcf : obj.cancelFn with
    | none => simp [cancelSubscription, hl, hcf]
    | some pair =>
      rcases pair with ⟨nm, ci⟩
      rcases hrem : removeEventSubscription s nm ci with ⟨s1, e⟩
      have h2 := removeEventSubscription_activeOutgoing s nm ci
      rw [hrem] at h2
      cases e <;> simp [cancelSubscription, hl, hcf, hrem] <;>
        simpa using h2

theorem applyAction_authDone_mono (s : LinkState) (a : Action)
    (h : s.authenticationDone = true) :
    (applyAction s a).authenticationDone = true := by
  cases a with
  | connEstablished =>
    simp only [applyAction, onConnectionEstablished, generateNewTid]
    split_ifs <;> simp [sendMessage, h]
  | inbound m =>
    simp only [applyAction, onMessage]
    rw [jsonCatch_fst]
    split_ifs with hpong
    · exact h
    · rw [handleMessagePostAuth_authDone]; exact h
  | addSub n hh => rw [applyAction, addEventSubscription_authDone]; exact h
  | cancelSub i => rw [applyAction, cancelSubscription_authDone]; exact h
  | removeSub n i =>
    rw [applyAction, removeEventSubscription_authDone]; exact h
  | emitEvt n d =>
    simp only [applyAction, emit]
    split_ifs <;>
      simp [sendEventEmitMessage, generateNewTid, sendMessage, h]
  | callFn n p =>
    simp only [applyAction, callFunction, generateNewTid]
    split_ifs <;> simp [sendMessage, h]
  | pongReceived =>
    simp only [applyAction, onPongReceived]
    split_ifs <;> simp [sendPongMessage, sendMessage, h]

theorem applyAction_activeOutgoing_preAuth (s : LinkState) (a : Action)
    (h : s.authenticationDone = false) :
    (applyAction s a).activeOutgoingEvents = s.activeOutgoingEvents := by
  cases a with
  | connEstablished =>
    simp only [applyAction, onConnectionEstablished, generateNewTid]
    split_ifs <;> simp [sendMessage]
  | inbound m =>
    simp only [applyAction, onMessage]
    rw [jsonCatch_fst]
    split_ifs with hpong hdone
    · rfl
    · exact absurd hdone (by simp [h])
    · rw [handleMessagePreAuth_activeOutgoing]
  | addSub n hh =>
    rw [applyAction, addEventSubscription_activeOutgoing]
  | cancelSub i =>
    rw [applyAction, cancelSubscription_activeOutgoing]
  | removeSub n i =>
    rw [applyAction, removeEventSubscription_activeOutgoing]
  | emitEvt n d =>
    simp only [applyAction, emit]
    split_ifs <;>
      simp [sendEventEmitMessage, generateNewTid, sendMessage]
  | callFn n p =>
    simp only [applyAction, callFunction, generateNewTid]
    split_ifs <;> simp [sendMessage]
  | pongReceived =>
    simp only [applyAction, onPongReceived]
    split_ifs <;> simp [sendPongMessage, sendMessage]

theorem reachable_inactive_before_auth (s₀ s : LinkState)
    (h0 : s₀.activeOutgoingEvents = [])
    (hr : Reachable s₀ s) (hna : s.authenticationDone = false) :
    s.activeOutgoingEvents = [] := by
  revert hna
  induction hr with
  | init => intro _; exact h0
  | step a hr ih =>
    intro hna
    rename_i s'
    have hs' : s'.authenticationDone = false := by
      by_contra hc
      have := applyAction_authDone_mono s' a (by
        cases hval : s'.authenticationDone
        · exact absurd hval hc
        · rfl)
      rw [hna] at this
      cases this
    rw [applyAction_activeOutgoing_preAuth s' a hs']
    exact ih hs'

/-- C10: in every state a link can reach before `authentication_done` is
set, `active_outgoing_events` is still empty (it only gains members in
the EVENT_SUB handler, which runs post-auth), so `emit` for an event
that *is* defined as outgoing returns without sending anything and
without any state change. -/
theorem emit_before_auth_is_silent (isServer : Bool) (linkVersion : Nat)
    (aInEv aOutEv aOutFn : List String) (fns : List (String × FnHandler))
    (s : LinkState) (name : String) (d : JsonVal)
    (hr : Reachable (initialLink isServer linkVersion aInEv aOutEv aOutFn fns) s)
    (hna : s.authenticationDone = false)
    (hav : s.availableOutgoingEvents.contains name = true) :
    emit s name d = (s, none) := by
  have hact : s.activeOutgoingEvents = [] :=
    reachable_inactive_before_auth _ s rfl hr hna
  have hav' : name ∈ s.availableOutgoingEvents := by simpa using hav
  simp [emit, hav', hact]

/-- Witness for the C10 theorem: the freshly constructed `clientBase`
(reached by the empty action sequence), whose outgoing event "F" is
defined but cannot yet be emitted onto the wire. -/
theorem emit_before_auth_is_silent_witness :
    clientBase.authenticationDone = false ∧
    clientBase.availableOutgoingEvents.contains "F" = true ∧
    emit clientBase "F" payload0 = (clientBase, none) :=
  ⟨rfl, by decide,
    emit_before_auth_is_silent false 7 ["E"] ["F"] [] [] clientBase "F"
      payload0 Reachable.init rfl (by decide)⟩

/-- Witness for the amended C3 theorem at a concrete input. -/
theorem teardown_invokes_no_error_hooks_witness :
    lookupZ (callFunction (initialLink false 7 [] [] ["Ping"] [])
        "Ping" payload0).1.activeTransactions
      (initialLink false 7 [] [] ["Ping"] []).tidCounter =
      some { direction := .outgoing, kind := .functionCall,
             hasResultHook := true, hasErrorHook := true } ∧
    (linkTeardown (callFunction (initialLink false 7 [] [] ["Ping"] [])
        "Ping" payload0).1).errorHookCalls = [] ∧
    (linkTeardown (callFunction (initialLink false 7 [] [] ["Ping"] [])
        "Ping" payload0).1).invalidatedSubs =
      (initialLink false 7 [] [] ["Ping"] []).subObjects.map (fun p => p.1) :=
  teardown_invokes_no_error_hooks (initialLink false 7 [] [] ["Ping"] [])
    "Ping" payload0 rfl

end ElMsglink
